import Mathlib

/-!
Shallow embedding of `hand_history.py`, a poker hand-history reader.

The Python module has two parts:
* `read_hand_history`: a line-oriented state machine turning a text stream
  into a list of `HandLog` records plus a list of out-of-band chip additions;
* `player_info`: a per-player statistics pass over the parsed hands.

Modelling conventions:
* Python `float` is idealised as `ℚ` (all amounts in the log format are
  decimal literals, and every arithmetic step of the program is exact on
  decimals).
* A Python `dict` keyed by player name is an association list
  `List (String × ℚ)` with Python's assignment semantics (update in place if
  the key is present, append otherwise); a Python `set` of names is a
  duplicate-free `List String` used only through membership.
* The regex layer is abstracted into the inductive type `Line`: each
  constructor corresponds to the first regex of the source's priority chain
  that matches the raw line (`Line.other` for a line matching none), and
  carries exactly the capture groups the handler reads, still as raw text.
  A whitespace-only line matches none of the regexes, so `Line.blank` is
  exclusive like every other constructor.
* Exceptions (`assert`, `float(...)` on a bad literal, `ZeroDivisionError`)
  are modelled with `Except PyErr`.
-/

namespace HandHist

/-- Python exceptions the program can raise. -/
inductive PyErr where
  | assertionError
  | valueError
  | zeroDivisionError
deriving Repr, DecidableEq

/-- Association-list model of a Python `dict` from player name to amount. -/
abbrev Dict := List (String × ℚ)

/-- Python `d[k] = v`: replace the value if the key is present, else append. -/
def dictInsert (d : Dict) (k : String) (v : ℚ) : Dict :=
  if d.any (fun q => q.1 == k) then
    d.map (fun q => if q.1 == k then (k, v) else q)
  else
    d ++ [(k, v)]

/-- Python `d.get(k, dflt)`. -/
def dictGet (d : Dict) (k : String) (dflt : ℚ) : ℚ :=
  match d.find? (fun q => q.1 == k) with
  | some q => q.2
  | none => dflt

/-- Python `k in d`. -/
def dictMem (d : Dict) (k : String) : Bool :=
  d.any (fun q => q.1 == k)

/-- Python `s.add(x)` on a set modelled as a duplicate-free list. -/
def setAdd (s : List String) (x : String) : List String :=
  if s.contains x then s else s ++ [x]

/-- Split a character list at every occurrence of a one-character separator
(Python `str.split(sep)` with `len(sep) == 1`); `cur` is the reversed
current token. -/
def split1 (a : Char) : List Char → List Char → List (List Char)
  | [], cur => [cur.reverse]
  | c :: rest, cur =>
    if c = a then cur.reverse :: split1 a rest []
    else split1 a rest (c :: cur)

/-- Split a character list at every occurrence of a two-character separator
(Python `str.split(sep)` with `len(sep) == 2`), scanning left to right and
consuming the separator. -/
def split2 (a b : Char) : List Char → List Char → List (List Char)
  | [], cur => [cur.reverse]
  | [c], cur => [(c :: cur).reverse]
  | c :: d :: rest, cur =>
    if c = a ∧ d = b then cur.reverse :: split2 a b rest []
    else split2 a b (d :: rest) (c :: cur)

/-- Python `s.split(", ")` as used on the settlement line's players group. -/
def splitCommaSpace (s : String) : List String :=
  (split2 ',' ' ' s.toList []).map (fun l => String.mk l)

/-- Python `p.split(": ")` as used on one `name: amount` settlement entry. -/
def splitColonSpace (s : String) : List String :=
  (split2 ':' ' ' s.toList []).map (fun l => String.mk l)

/-- Numeric value of a digit string, `none` if a non-digit occurs. -/
def digitsToNat (s : List Char) : Option ℕ :=
  s.foldl
    (fun acc c => acc.bind (fun n => if c.isDigit then some (10 * n + (c.toNat - 48)) else none))
    (some 0)

/-- Python `float(s)` restricted to the texts the amount regexes capture
(strings over digits and `.`): `none` models `ValueError` (more than one
dot, a lone dot, or the empty string); the value of a decimal literal is
exact. -/
def parseDecimal (s : String) : Option ℚ :=
  if s.isEmpty then none
  else
    match split1 '.' s.toList [] with
    | [a] => (digitsToNat a).map (fun n => (n : ℚ))
    | [a, b] =>
      if a.isEmpty ∧ b.isEmpty then none
      else
        (digitsToNat a).bind (fun x =>
          (digitsToNat b).map (fun y => (x : ℚ) + (y : ℚ) / ((10 ^ b.length : ℕ) : ℚ)))
    | _ => none

/-- One betting pot's settlement (`class Pot`). -/
structure Pot where
  amounts : Dict
  winners : Dict
  at_showdown : List String
deriving Repr, DecidableEq

/-- One played hand (`class HandLog`). -/
structure HandLog where
  has_showdown : Bool
  blinds : Dict
  at_table : List String
  vpip : List String
  pots : List Pot
deriving Repr, DecidableEq

/-- `HandLog.empty_hand()`: the fresh accumulator. -/
def HandLog.empty_hand : HandLog :=
  ⟨false, [], [], [], []⟩

/-- `HandLog.is_empty`: no blinds, no seated players, no voluntary actions
and no pots (`has_showdown` is not consulted). -/
def HandLog.is_empty (h : HandLog) : Bool :=
  h.blinds.isEmpty && h.at_table.isEmpty && h.vpip.isEmpty && h.pots.isEmpty

/-- The full parse result (`class HandHistory`). -/
structure HandHistory where
  hand_logs : List HandLog
  adds : List (String × ℚ)
deriving Repr, DecidableEq

/-- One input line, classified by the first matching regex of the source's
priority chain, carrying the capture groups its handler reads (amounts kept
as raw text because the handler itself calls `float`). -/
inductive Line where
  | blank
  | handStart
  | seat (name : String)
  | showdownMarker
  | winner (name : String) (amount : String)
  | shows (name : String)
  | voluntary (name : String)
  | blind (name : String) (amount : String)
  | settlement (players : String)
  | adds (name : String) (amount : String)
  | other
deriving Repr, DecidableEq

/-- The parser's mutable state between lines: finished hands, the current
hand accumulator, the pending `shows` list, the nullable pot accumulator and
the global chip-additions list. -/
structure ParseState where
  hands : List HandLog
  hand : HandLog
  shows : List String
  pot : Option Pot
  player_adds : List (String × ℚ)
deriving Repr, DecidableEq

/-- Parser state at the top of `read_hand_history`. -/
def initState : ParseState :=
  ⟨[], HandLog.empty_hand, [], none, []⟩

/-- Process the settlement entries left to right (the dict comprehension
`{name: float(amt)/10.0 for (name, amt) in players if amt != "0"}` over the
already split pairs): an entry that does not split into exactly
`name: amount` raises `ValueError` from tuple unpacking, the textual filter
`amt != "0"` drops an entry before `float` is called, and a kept entry
stores `float(amt) / 10`. -/
def buildAmounts : Dict → List String → Except PyErr Dict
  | d, [] => .ok d
  | d, e :: rest =>
    match splitColonSpace e with
    | [name, amt] =>
      if amt = "0" then buildAmounts d rest
      else
        match parseDecimal amt with
        | some v => buildAmounts (dictInsert d name (v / 10)) rest
        | none => .error .valueError
    | _ => .error .valueError

/-- One iteration of the `for` loop of `read_hand_history`, acting on the
classified line. -/
def stepLine (st : ParseState) : Line → Except PyErr ParseState
  | .blank =>
    .ok { st with
      hands := if st.hand.is_empty then st.hands else st.hands ++ [st.hand],
      hand := HandLog.empty_hand }
  | .handStart =>
    .ok { st with hand := HandLog.empty_hand, shows := [] }
  | .seat name =>
    .ok { st with hand := { st.hand with at_table := setAdd st.hand.at_table name } }
  | .showdownMarker =>
    .ok { st with hand := { st.hand with has_showdown := true } }
  | .winner name amt =>
    match parseDecimal amt with
    | none => .error .valueError
    | some v =>
      let p := match st.pot with
        | none => (⟨[], [], []⟩ : Pot)
        | some p => p
      .ok { st with pot := some { p with winners := dictInsert p.winners name (v / 10) } }
  | .shows name =>
    .ok { st with shows := st.shows ++ [name] }
  | .voluntary name =>
    .ok { st with hand := { st.hand with vpip := setAdd st.hand.vpip name } }
  | .blind name amt =>
    match parseDecimal amt with
    | none => .error .valueError
    | some v =>
      .ok { st with hand := { st.hand with blinds := dictInsert st.hand.blinds name (v / 10) } }
  | .settlement players =>
    match st.pot with
    | none => .error .assertionError
    | some p =>
      match buildAmounts [] (splitCommaSpace players) with
      | .error e => .error e
      | .ok amts =>
        .ok { st with
          hand := { st.hand with
            pots := st.hand.pots ++ [{ p with amounts := amts, at_showdown := st.shows }] },
          pot := none }
  | .adds name amt =>
    match parseDecimal amt with
    | none => .error .valueError
    | some v =>
      .ok { st with player_adds := st.player_adds ++ [(name, v / 10)] }
  | .other => .ok st

/-- The `for` loop of `read_hand_history`: fold `stepLine` over the lines,
propagating the first exception. -/
def runLines : ParseState → List Line → Except PyErr ParseState
  | st, [] => .ok st
  | st, l :: ls =>
    match stepLine st l with
    | .error e => .error e
    | .ok st' => runLines st' ls

/-- `read_hand_history`: run the state machine and package the finished
hands and the chip additions; the in-progress accumulators are dropped. -/
def read_hand_history (lines : List Line) : Except PyErr HandHistory :=
  match runLines initState lines with
  | .error e => .error e
  | .ok st => .ok ⟨st.hands, st.player_adds⟩

/-- The per-hand inner loop of `player_info`: fold over the hand's pots,
accumulating `(amount_won, amount_bet)` from the player's `winners.get` and
`amounts.get` entries. -/
def handAmounts (h : HandLog) (p : String) : ℚ × ℚ :=
  h.pots.foldl
    (fun acc pot => (acc.1 + dictGet pot.winners p 0, acc.2 + dictGet pot.amounts p 0))
    (0, 0)

/-- The running accumulators of `player_info`'s `for hand in hands` loop. -/
structure Accum where
  num_hands_won : ℕ
  num_hands_lost : ℕ
  num_hands_lost_vpip : ℕ
  num_hands_won_showdown : ℕ
  net : ℚ
  net_won : ℚ
  gross_won : ℚ
  net_lost : ℚ
  blinds_paid : ℚ
  max_pot : ℚ
  min_pot : ℚ
deriving Repr, DecidableEq

/-- All accumulators start at zero. -/
def initAccum : Accum :=
  ⟨0, 0, 0, 0, 0, 0, 0, 0, 0, 0, 0⟩

/-- One iteration of `player_info`'s loop body for a single hand. -/
def statsStep (p : String) (a : Accum) (hand : HandLog) : Accum :=
  let amount_won := (handAmounts hand p).1
  let amount_bet := (handAmounts hand p).2
  let a1 : Accum := { a with blinds_paid := a.blinds_paid + dictGet hand.blinds p 0 }
  let a2 : Accum :=
    if 0 < amount_won ∧ amount_bet < amount_won then
      { a1 with
        num_hands_won := a1.num_hands_won + 1,
        num_hands_won_showdown :=
          a1.num_hands_won_showdown + (if hand.has_showdown then 1 else 0),
        gross_won := a1.gross_won + amount_won,
        net_won := a1.net_won + (amount_won - amount_bet) }
    else if 0 < amount_bet then
      { a1 with
        net_lost := a1.net_lost + (amount_bet - amount_won),
        num_hands_lost := a1.num_hands_lost + 1,
        num_hands_lost_vpip :=
          a1.num_hands_lost_vpip + (if hand.vpip.contains p then 1 else 0) }
    else a1
  { a2 with
    net := a2.net + (amount_won - amount_bet),
    max_pot := max a2.max_pot (amount_won - amount_bet),
    min_pot := min a2.min_pot (amount_won - amount_bet) }

/-- `player_info`'s loop over the whole hand list. -/
def computeAccum (hands : List HandLog) (p : String) : Accum :=
  hands.foldl (statsStep p) initAccum

/-- `total_hands`: hands where the player is seated. -/
def totalHands (hands : List HandLog) (p : String) : ℕ :=
  hands.countP (fun h => h.at_table.contains p)

/-- `num_showdown`: hands with a showdown where the player showed before
some pot's resolution. -/
def numShowdown (hands : List HandLog) (p : String) : ℕ :=
  hands.countP (fun h => h.has_showdown && h.pots.any (fun pot => pot.at_showdown.contains p))

/-- `num_vpip`: hands where the player voluntarily put money in. -/
def numVpip (hands : List HandLog) (p : String) : ℕ :=
  hands.countP (fun h => h.vpip.contains p)

/-- `num_part`: hands where the player appears in some pot's `amounts`. -/
def numPart (hands : List HandLog) (p : String) : ℕ :=
  hands.countP (fun h => h.pots.any (fun pot => dictMem pot.amounts p))

/-- The numbers `player_info` prints, in print order. -/
structure Report where
  net : ℚ
  total_hands : ℕ
  num_part : ℕ
  pct_part : ℚ
  num_vpip : ℕ
  pct_vpip : ℚ
  num_showdown : ℕ
  pct_showdown : ℚ
  num_hands_won : ℕ
  pct_won_in : ℚ
  pct_won_vpip : ℚ
  num_hands_won_showdown : ℕ
  pct_won_sd_in : ℚ
  pct_won_sd_sd : ℚ
  avg_won_gross : ℚ
  avg_won_net : ℚ
  max_pot : ℚ
  avg_lost : ℚ
  num_hands_lost : ℕ
  avg_lost_vpip : ℚ
  num_hands_lost_vpip : ℕ
  min_pot : ℚ
deriving Repr, DecidableEq

/-- `player_info`: compute the counters and render the report values.
Python raises `ZeroDivisionError` at the first percentage or average whose
(integer) denominator is zero; since the partial output printed before the
raise is outside the model, checking the seven denominators up front in
their print order (`total_hands`, `num_vpip`, `num_part`, `num_showdown`,
`num_hands_won`, `num_hands_lost`, `num_hands_lost_vpip`) is observationally
equivalent on the returned value. -/
def player_info (hands : List HandLog) (p : String) : Except PyErr Report :=
  let th := totalHands hands p
  let nsd := numShowdown hands p
  let nv := numVpip hands p
  let np := numPart hands p
  let a := computeAccum hands p
  if th = 0 then .error .zeroDivisionError
  else if nv = 0 then .error .zeroDivisionError
  else if np = 0 then .error .zeroDivisionError
  else if nsd = 0 then .error .zeroDivisionError
  else if a.num_hands_won = 0 then .error .zeroDivisionError
  else if a.num_hands_lost = 0 then .error .zeroDivisionError
  else if a.num_hands_lost_vpip = 0 then .error .zeroDivisionError
  else .ok
    { net := a.net
      total_hands := th
      num_part := np
      pct_part := 100 * (np : ℚ) / (th : ℚ)
      num_vpip := nv
      pct_vpip := 100 * (nv : ℚ) / (th : ℚ)
      num_showdown := nsd
      pct_showdown := 100 * (nsd : ℚ) / (nv : ℚ)
      num_hands_won := a.num_hands_won
      pct_won_in := 100 * (a.num_hands_won : ℚ) / (np : ℚ)
      pct_won_vpip := 100 * (a.num_hands_won : ℚ) / (nv : ℚ)
      num_hands_won_showdown := a.num_hands_won_showdown
      pct_won_sd_in := 100 * (a.num_hands_won_showdown : ℚ) / (np : ℚ)
      pct_won_sd_sd := 100 * (a.num_hands_won_showdown : ℚ) / (nsd : ℚ)
      avg_won_gross := a.gross_won / (a.num_hands_won : ℚ)
      avg_won_net := a.net_won / (a.num_hands_won : ℚ)
      max_pot := a.max_pot
      avg_lost := a.net_lost / (a.num_hands_lost : ℚ)
      num_hands_lost := a.num_hands_lost
      avg_lost_vpip := (a.net_lost - a.blinds_paid) / (a.num_hands_lost_vpip : ℚ)
      num_hands_lost_vpip := a.num_hands_lost_vpip
      min_pot := a.min_pot }

/-! ## Spec-side definitions

These restate, in the spec's own map/filter/sum vocabulary, the quantities
the claims describe; the theorems below compare them with the fold-based
embedding of the source. -/

/-- Spec wording: `amount_won` = sum of the player's `winners` entries
across the hand's pots. -/
def specAmountWon (h : HandLog) (p : String) : ℚ :=
  (h.pots.map (fun pot => dictGet pot.winners p 0)).sum

/-- Spec wording: `amount_bet` = sum of the player's `amounts` entries
across the hand's pots. -/
def specAmountBet (h : HandLog) (p : String) : ℚ :=
  (h.pots.map (fun pot => dictGet pot.amounts p 0)).sum

/-- Spec wording: net for the hand = `amount_won - amount_bet`. -/
def specHandNet (h : HandLog) (p : String) : ℚ :=
  specAmountWon h p - specAmountBet h p

/-- Spec wording: won iff `amount_won > 0` and `amount_won > amount_bet`. -/
def specWon (h : HandLog) (p : String) : Bool :=
  decide (0 < specAmountWon h p) && decide (specAmountBet h p < specAmountWon h p)

/-- Spec wording: lost iff not won and `amount_bet > 0`. -/
def specLost (h : HandLog) (p : String) : Bool :=
  !specWon h p && decide (0 < specAmountBet h p)

/-- The claim's formula for "Average Pot Lost (VPiP only)": the sum of
`amount_bet - amount_won` over exactly the Lost hands where the player is in
`vpip`, divided by the count of those hands. -/
def claimAvgLostVpip (hands : List HandLog) (p : String) : ℚ :=
  ((hands.filter (fun hd => specLost hd p && hd.vpip.contains p)).map
    (fun hd => specAmountBet hd p - specAmountWon hd p)).sum
  / (hands.countP (fun hd => specLost hd p && hd.vpip.contains p) : ℚ)

/-- What line 164 of the source actually averages, stated spec-style: the
sum of `amount_bet - amount_won` over all Lost hands, minus the player's
blinds over all hands, divided by the count of Lost hands with the player in
`vpip`. -/
def codeAvgLostVpip (hands : List HandLog) (p : String) : ℚ :=
  (((hands.filter (fun hd => specLost hd p)).map
      (fun hd => specAmountBet hd p - specAmountWon hd p)).sum
    - (hands.map (fun hd => dictGet hd.blinds p 0)).sum)
  / (hands.countP (fun hd => specLost hd p && hd.vpip.contains p) : ℚ)

/-- A settlement entry is well formed when it splits into `name: amount` and
its amount text is the literal `"0"` or parses as a decimal. -/
def entryOk (e : String) : Bool :=
  match splitColonSpace e with
  | [_, amt] => amt == "0" || (parseDecimal amt).isSome
  | _ => false

/-- A line whose handler cannot raise `ValueError`: its amount texts parse
and its settlement entries are well formed. -/
def lineOk : Line → Bool
  | .winner _ amt => (parseDecimal amt).isSome
  | .blind _ amt => (parseDecimal amt).isSome
  | .adds _ amt => (parseDecimal amt).isSome
  | .settlement players => (splitCommaSpace players).all entryOk
  | _ => true

/-- Tracks whether a pot accumulator is open (opened by a winner line,
required and closed by a settlement line); `true` means every settlement
line of the list arrives with a pot open. -/
def potDiscipline : Bool → List Line → Bool
  | _, [] => true
  | _, .winner _ _ :: ls => potDiscipline true ls
  | b, .settlement _ :: ls => b && potDiscipline false ls
  | b, _ :: ls => potDiscipline b ls

/-- The settlement entries the dict comprehension keeps: those that split
into `name: amount` with amount text other than the literal `"0"`. -/
def keptEntries (entries : List String) : List (String × String) :=
  entries.filterMap (fun e =>
    match splitColonSpace e with
    | [n, amt] => if amt = "0" then none else some (n, amt)
    | _ => none)

/-! ## Parser lemmas -/

/-- Running the fold over a concatenation runs the two halves in order. -/
theorem runLines_append (l1 l2 : List Line) : ∀ st : ParseState,
    runLines st (l1 ++ l2) =
      match runLines st l1 with
      | .ok st1 => runLines st1 l2
      | .error e => .error e := by
  induction l1 with
  | nil => intro st; simp [runLines]
  | cons l ls ih =>
    intro st
    cases hs : stepLine st l with
    | error e => simp only [List.cons_append, runLines, hs]
    | ok st1 =>
      simp only [List.cons_append, runLines, hs]
      exact ih st1

/-- A successful step either leaves the finished-hands list unchanged or
appends the current hand, and then only when that hand is non-empty. -/
theorem stepLine_hands {st : ParseState} {l : Line} {st1 : ParseState}
    (h : stepLine st l = .ok st1) :
    st1.hands = st.hands ∨
      (st1.hands = st.hands ++ [st.hand] ∧ st.hand.is_empty = false) := by
  cases l with
  | blank =>
    simp only [stepLine, Except.ok.injEq] at h
    subst h
    by_cases he : st.hand.is_empty
    · left; simp [he]
    · right; simp at he; simp [he]
  | handStart =>
    simp only [stepLine, Except.ok.injEq] at h; subst h; left; rfl
  | seat name =>
    simp only [stepLine, Except.ok.injEq] at h; subst h; left; rfl
  | showdownMarker =>
    simp only [stepLine, Except.ok.injEq] at h; subst h; left; rfl
  | winner name amt =>
    simp only [stepLine] at h
    cases hp : parseDecimal amt with
    | none => rw [hp] at h; cases h
    | some v =>
      rw [hp] at h
      simp only [Except.ok.injEq] at h; subst h; left; rfl
  | shows name =>
    simp only [stepLine, Except.ok.injEq] at h; subst h; left; rfl
  | voluntary name =>
    simp only [stepLine, Except.ok.injEq] at h; subst h; left; rfl
  | blind name amt =>
    simp only [stepLine] at h
    cases hp : parseDecimal amt with
    | none => rw [hp] at h; cases h
    | some v =>
      rw [hp] at h
      simp only [Except.ok.injEq] at h; subst h; left; rfl
  | settlement players =>
    simp only [stepLine] at h
    cases hpot : st.pot with
    | none => rw [hpot] at h; cases h
    | some p =>
      rw [hpot] at h
      cases hb : buildAmounts [] (splitCommaSpace players) with
      | error e => rw [hb] at h; cases h
      | ok amts =>
        rw [hb] at h
        simp only [Except.ok.injEq] at h; subst h; left; rfl
  | adds name amt =>
    simp only [stepLine] at h
    cases hp : parseDecimal amt with
    | none => rw [hp] at h; cases h
    | some v =>
      rw [hp] at h
      simp only [Except.ok.injEq] at h; subst h; left; rfl
  | other =>
    simp only [stepLine, Except.ok.injEq] at h; subst h; left; rfl

/-- The finished-hands invariant: every hand ever appended is non-empty. -/
theorem runLines_hands_nonempty : ∀ (lines : List Line) (st st1 : ParseState),
    (∀ hl ∈ st.hands, hl.is_empty = false) → runLines st lines = .ok st1 →
    ∀ hl ∈ st1.hands, hl.is_empty = false := by
  intro lines
  induction lines with
  | nil =>
    intro st st1 hinv h
    simp only [runLines, Except.ok.injEq] at h
    subst h; exact hinv
  | cons l ls ih =>
    intro st st1 hinv h
    unfold runLines at h
    cases hs : stepLine st l with
    | error e => rw [hs] at h; cases h
    | ok st2 =>
      rw [hs] at h
      refine ih st2 st1 ?_ h
      intro hl hmem
      rcases stepLine_hands hs with heq | ⟨heq, hne⟩
      · exact hinv hl (heq ▸ hmem)
      · rw [heq] at hmem
        rcases List.mem_append.mp hmem with hm | hm
        · exact hinv hl hm
        · simp only [List.mem_singleton] at hm; subst hm; exact hne

/-- Well-formed settlement entries never raise while building `amounts`. -/
theorem buildAmounts_ok : ∀ (entries : List String) (d : Dict),
    entries.all entryOk = true → ∃ d1, buildAmounts d entries = .ok d1 := by
  intro entries
  induction entries with
  | nil => exact fun d _ => ⟨d, rfl⟩
  | cons e rest ih =>
    intro d hall
    rw [List.all_cons, Bool.and_eq_true] at hall
    have he := hall.1
    have hrest := hall.2
    unfold entryOk at he
    unfold buildAmounts
    cases hsp : splitColonSpace e with
    | nil => rw [hsp] at he; cases he
    | cons n t =>
      cases t with
      | nil => rw [hsp] at he; cases he
      | cons amt t2 =>
        cases t2 with
        | cons x t3 => rw [hsp] at he; cases he
        | nil =>
          rw [hsp] at he
          dsimp only at he ⊢
          by_cases hz : amt = "0"
          · rw [if_pos hz]
            exact ih d hrest
          · rw [if_neg hz]
            rw [Bool.or_eq_true] at he
            rcases he with he | he
            · exact absurd (beq_iff_eq.mp he) hz
            · cases hp : parseDecimal amt with
              | none => rw [hp] at he; cases he
              | some v => exact ih (dictInsert d n (v / 10)) hrest

/-- If every line's amount texts are well formed and every settlement line
arrives with a pot open, the loop never raises. -/
theorem runLines_total : ∀ (lines : List Line) (st : ParseState),
    (∀ l ∈ lines, lineOk l = true) → potDiscipline st.pot.isSome lines = true →
    ∃ st1, runLines st lines = .ok st1 := by
  intro lines
  induction lines with
  | nil => exact fun st _ _ => ⟨st, rfl⟩
  | cons l ls ih =>
    intro st hok hdisc
    have hl : lineOk l = true := hok l (List.mem_cons_self l ls)
    have hls : ∀ x ∈ ls, lineOk x = true := fun x hx => hok x (List.mem_cons_of_mem l hx)
    cases l with
    | blank =>
      obtain ⟨st1, h1⟩ := ih
        { st with
          hands := if st.hand.is_empty then st.hands else st.hands ++ [st.hand],
          hand := HandLog.empty_hand } hls hdisc
      exact ⟨st1, by simp only [runLines, stepLine]; exact h1⟩
    | handStart =>
      obtain ⟨st1, h1⟩ := ih { st with hand := HandLog.empty_hand, shows := [] } hls hdisc
      exact ⟨st1, by simp only [runLines, stepLine]; exact h1⟩
    | seat name =>
      obtain ⟨st1, h1⟩ := ih
        { st with hand := { st.hand with at_table := setAdd st.hand.at_table name } } hls hdisc
      exact ⟨st1, by simp only [runLines, stepLine]; exact h1⟩
    | showdownMarker =>
      obtain ⟨st1, h1⟩ := ih
        { st with hand := { st.hand with has_showdown := true } } hls hdisc
      exact ⟨st1, by simp only [runLines, stepLine]; exact h1⟩
    | winner name amt =>
      rw [lineOk] at hl
      cases hp : parseDecimal amt with
      | none => rw [hp] at hl; cases hl
      | some v =>
        obtain ⟨st1, h1⟩ := ih
          { st with
            pot := some
              { (match st.pot with | none => (⟨[], [], []⟩ : Pot) | some p => p) with
                winners := dictInsert
                  (match st.pot with | none => (⟨[], [], []⟩ : Pot) | some p => p).winners
                  name (v / 10) } } hls hdisc
        refine ⟨st1, ?_⟩
        simp only [runLines, stepLine, hp]
        exact h1
    | shows name =>
      obtain ⟨st1, h1⟩ := ih { st with shows := st.shows ++ [name] } hls hdisc
      exact ⟨st1, by simp only [runLines, stepLine]; exact h1⟩
    | voluntary name =>
      obtain ⟨st1, h1⟩ := ih
        { st with hand := { st.hand with vpip := setAdd st.hand.vpip name } } hls hdisc
      exact ⟨st1, by simp only [runLines, stepLine]; exact h1⟩
    | blind name amt =>
      rw [lineOk] at hl
      cases hp : parseDecimal amt with
      | none => rw [hp] at hl; cases hl
      | some v =>
        obtain ⟨st1, h1⟩ := ih
          { st with hand := { st.hand with blinds := dictInsert st.hand.blinds name (v / 10) } }
          hls hdisc
        refine ⟨st1, ?_⟩
        simp only [runLines, stepLine, hp]
        exact h1
    | settlement players =>
      have hdisc2 : (st.pot.isSome && potDiscipline false ls) = true := hdisc
      rw [Bool.and_eq_true] at hdisc2
      obtain ⟨p, hpot⟩ := Option.isSome_iff_exists.mp hdisc2.1
      rw [lineOk] at hl
      obtain ⟨amts, hamts⟩ := buildAmounts_ok (splitCommaSpace players) [] hl
      obtain ⟨st1, h1⟩ := ih
        { st with
          hand := { st.hand with
            pots := st.hand.pots ++ [{ p with amounts := amts, at_showdown := st.shows }] },
          pot := none } hls hdisc2.2
      refine ⟨st1, ?_⟩
      simp only [runLines, stepLine, hpot, hamts]
      exact h1
    | adds name amt =>
      rw [lineOk] at hl
      cases hp : parseDecimal amt with
      | none => rw [hp] at hl; cases hl
      | some v =>
        obtain ⟨st1, h1⟩ := ih { st with player_adds := st.player_adds ++ [(name, v / 10)] }
          hls hdisc
        refine ⟨st1, ?_⟩
        simp only [runLines, stepLine, hp]
        exact h1
    | other =>
      obtain ⟨st1, h1⟩ := ih st hls hdisc
      exact ⟨st1, by simp only [runLines, stepLine]; exact h1⟩

/-! ## Aggregator lemmas -/

/-- The pot fold of `player_info` computes the two spec-side sums. -/
theorem handAmounts_go (p : String) (pots : List Pot) : ∀ w b : ℚ,
    pots.foldl
      (fun acc pot => (acc.1 + dictGet pot.winners p 0, acc.2 + dictGet pot.amounts p 0))
      (w, b) =
    (w + (pots.map (fun pot => dictGet pot.winners p 0)).sum,
     b + (pots.map (fun pot => dictGet pot.amounts p 0)).sum) := by
  induction pots with
  | nil => intro w b; simp
  | cons q rest ih =>
    intro w b
    simp only [List.foldl_cons, List.map_cons, List.sum_cons, ih, add_assoc]

/-- `(amount_won, amount_bet)` of a hand equals the spec-side pair. -/
theorem handAmounts_eq (h : HandLog) (p : String) :
    handAmounts h p = (specAmountWon h p, specAmountBet h p) := by
  unfold handAmounts specAmountWon specAmountBet
  rw [handAmounts_go]
  simp

/-- `specWon` unfolded to its two comparisons. -/
theorem specWon_iff (h : HandLog) (p : String) :
    specWon h p = true ↔ (0 < specAmountWon h p ∧ specAmountBet h p < specAmountWon h p) := by
  simp [specWon]

/-- `specLost` unfolded: not won, and a positive bet. -/
theorem specLost_iff (h : HandLog) (p : String) :
    specLost h p = true ↔ (specWon h p = false ∧ 0 < specAmountBet h p) := by
  simp [specLost]

/-- `specWon` is false when the won condition fails. -/
theorem specWon_eq_false (h : HandLog) (p : String)
    (hw : ¬(0 < specAmountWon h p ∧ specAmountBet h p < specAmountWon h p)) :
    specWon h p = false := by
  rw [← Bool.not_eq_true, specWon_iff h p]
  exact hw

/-- One loop iteration increments the won counter exactly on won hands. -/
theorem statsStep_num_won (p : String) (a : Accum) (hand : HandLog) :
    (statsStep p a hand).num_hands_won =
      a.num_hands_won + (if specWon hand p then 1 else 0) := by
  simp only [statsStep, handAmounts_eq]
  by_cases hw : 0 < specAmountWon hand p ∧ specAmountBet hand p < specAmountWon hand p
  · rw [if_pos hw, (specWon_iff hand p).mpr hw]
    simp
  · rw [if_neg hw, specWon_eq_false hand p hw]
    by_cases hb : 0 < specAmountBet hand p
    · rw [if_pos hb]; simp
    · rw [if_neg hb]; simp

/-- One loop iteration increments the showdown-win counter exactly on won
hands with a showdown. -/
theorem statsStep_num_won_sd (p : String) (a : Accum) (hand : HandLog) :
    (statsStep p a hand).num_hands_won_showdown =
      a.num_hands_won_showdown + (if specWon hand p && hand.has_showdown then 1 else 0) := by
  simp only [statsStep, handAmounts_eq]
  by_cases hw : 0 < specAmountWon hand p ∧ specAmountBet hand p < specAmountWon hand p
  · rw [if_pos hw, (specWon_iff hand p).mpr hw]
    simp
  · rw [if_neg hw, specWon_eq_false hand p hw]
    by_cases hb : 0 < specAmountBet hand p
    · rw [if_pos hb]; simp
    · rw [if_neg hb]; simp

/-- One loop iteration increments the lost counter exactly on lost hands. -/
theorem statsStep_num_lost (p : String) (a : Accum) (hand : HandLog) :
    (statsStep p a hand).num_hands_lost =
      a.num_hands_lost + (if specLost hand p then 1 else 0) := by
  simp only [statsStep, handAmounts_eq]
  by_cases hw : 0 < specAmountWon hand p ∧ specAmountBet hand p < specAmountWon hand p
  · rw [if_pos hw]
    have hlf : specLost hand p = false := by
      simp [specLost, (specWon_iff hand p).mpr hw]
    rw [hlf]
    simp
  · rw [if_neg hw]
    have hwf := specWon_eq_false hand p hw
    by_cases hb : 0 < specAmountBet hand p
    · rw [if_pos hb, (specLost_iff hand p).mpr ⟨hwf, hb⟩]
      simp
    · rw [if_neg hb]
      have hlf : specLost hand p = false := by simp [specLost, hb]
      rw [hlf]
      simp

/-- One loop iteration increments the VPIP-lost counter exactly on lost
hands where the player is in `vpip`. -/
theorem statsStep_num_lost_vpip (p : String) (a : Accum) (hand : HandLog) :
    (statsStep p a hand).num_hands_lost_vpip =
      a.num_hands_lost_vpip +
        (if specLost hand p && hand.vpip.contains p then 1 else 0) := by
  simp only [statsStep, handAmounts_eq]
  by_cases hw : 0 < specAmountWon hand p ∧ specAmountBet hand p < specAmountWon hand p
  · rw [if_pos hw]
    have hlf : specLost hand p = false := by
      simp [specLost, (specWon_iff hand p).mpr hw]
    rw [hlf]
    simp
  · rw [if_neg hw]
    have hwf := specWon_eq_false hand p hw
    by_cases hb : 0 < specAmountBet hand p
    · rw [if_pos hb, (specLost_iff hand p).mpr ⟨hwf, hb⟩]
      simp
    · rw [if_neg hb]
      have hlf : specLost hand p = false := by simp [specLost, hb]
      rw [hlf]
      simp

/-- One loop iteration adds `amount_bet - amount_won` to `net_lost` exactly
on lost hands. -/
theorem statsStep_net_lost (p : String) (a : Accum) (hand : HandLog) :
    (statsStep p a hand).net_lost =
      a.net_lost +
        (if specLost hand p then specAmountBet hand p - specAmountWon hand p else 0) := by
  simp only [statsStep, handAmounts_eq]
  by_cases hw : 0 < specAmountWon hand p ∧ specAmountBet hand p < specAmountWon hand p
  · rw [if_pos hw]
    have hlf : specLost hand p = false := by
      simp [specLost, (specWon_iff hand p).mpr hw]
    rw [hlf]
    simp
  · rw [if_neg hw]
    have hwf := specWon_eq_false hand p hw
    by_cases hb : 0 < specAmountBet hand p
    · rw [if_pos hb, (specLost_iff hand p).mpr ⟨hwf, hb⟩]
      simp
    · rw [if_neg hb]
      have hlf : specLost hand p = false := by simp [specLost, hb]
      rw [hlf]
      simp

/-- One loop iteration adds the hand's blind to `blinds_paid`. -/
theorem statsStep_blinds (p : String) (a : Accum) (hand : HandLog) :
    (statsStep p a hand).blinds_paid = a.blinds_paid + dictGet hand.blinds p 0 := by
  simp only [statsStep, handAmounts_eq]
  split_ifs <;> rfl

/-- One loop iteration updates the running maximum with the hand's net. -/
theorem statsStep_max (p : String) (a : Accum) (hand : HandLog) :
    (statsStep p a hand).max_pot = max a.max_pot (specHandNet hand p) := by
  simp only [statsStep, handAmounts_eq, specHandNet]
  split_ifs <;> rfl

/-- One loop iteration updates the running minimum with the hand's net. -/
theorem statsStep_min (p : String) (a : Accum) (hand : HandLog) :
    (statsStep p a hand).min_pot = min a.min_pot (specHandNet hand p) := by
  simp only [statsStep, handAmounts_eq, specHandNet]
  split_ifs <;> rfl

/-- Folding the loop counts the won hands. -/
theorem foldl_num_won (p : String) (hands : List HandLog) : ∀ a : Accum,
    (hands.foldl (statsStep p) a).num_hands_won =
      a.num_hands_won + hands.countP (fun h => specWon h p) := by
  induction hands with
  | nil => intro a; simp
  | cons hd tl ih =>
    intro a
    simp only [List.foldl_cons, List.countP_cons, ih, statsStep_num_won]
    ring

/-- Folding the loop counts the won hands that had a showdown. -/
theorem foldl_num_won_sd (p : String) (hands : List HandLog) : ∀ a : Accum,
    (hands.foldl (statsStep p) a).num_hands_won_showdown =
      a.num_hands_won_showdown + hands.countP (fun h => specWon h p && h.has_showdown) := by
  induction hands with
  | nil => intro a; simp
  | cons hd tl ih =>
    intro a
    simp only [List.foldl_cons, List.countP_cons, ih, statsStep_num_won_sd]
    ring

/-- Folding the loop counts the lost hands. -/
theorem foldl_num_lost (p : String) (hands : List HandLog) : ∀ a : Accum,
    (hands.foldl (statsStep p) a).num_hands_lost =
      a.num_hands_lost + hands.countP (fun h => specLost h p) := by
  induction hands with
  | nil => intro a; simp
  | cons hd tl ih =>
    intro a
    simp only [List.foldl_cons, List.countP_cons, ih, statsStep_num_lost]
    ring

/-- Folding the loop counts the lost hands with the player in `vpip`. -/
theorem foldl_num_lost_vpip (p : String) (hands : List HandLog) : ∀ a : Accum,
    (hands.foldl (statsStep p) a).num_hands_lost_vpip =
      a.num_hands_lost_vpip +
        hands.countP (fun h => specLost h p && h.vpip.contains p) := by
  induction hands with
  | nil => intro a; simp
  | cons hd tl ih =>
    intro a
    simp only [List.foldl_cons, List.countP_cons, ih, statsStep_num_lost_vpip]
    ring

/-- Folding the loop sums `amount_bet - amount_won` over the lost hands. -/
theorem foldl_net_lost (p : String) (hands : List HandLog) : ∀ a : Accum,
    (hands.foldl (statsStep p) a).net_lost =
      a.net_lost +
        ((hands.filter (fun h => specLost h p)).map
          (fun h => specAmountBet h p - specAmountWon h p)).sum := by
  induction hands with
  | nil => intro a; simp
  | cons hd tl ih =>
    intro a
    by_cases hl : specLost hd p
    · simp only [List.foldl_cons, ih, statsStep_net_lost, List.filter_cons, hl, if_pos,
        List.map_cons, List.sum_cons, if_true]
      ring
    · simp only [List.foldl_cons, ih, statsStep_net_lost, List.filter_cons, hl]
      simp [hl]

/-- Folding the loop sums the player's blinds over all hands. -/
theorem foldl_blinds (p : String) (hands : List HandLog) : ∀ a : Accum,
    (hands.foldl (statsStep p) a).blinds_paid =
      a.blinds_paid + (hands.map (fun h => dictGet h.blinds p 0)).sum := by
  induction hands with
  | nil => intro a; simp
  | cons hd tl ih =>
    intro a
    simp only [List.foldl_cons, ih, statsStep_blinds, List.map_cons, List.sum_cons]
    ring

/-- Folding the loop computes the running maximum of the per-hand nets. -/
theorem foldl_max (p : String) (hands : List HandLog) : ∀ a : Accum,
    (hands.foldl (statsStep p) a).max_pot =
      hands.foldl (fun m h => max m (specHandNet h p)) a.max_pot := by
  induction hands with
  | nil => intro a; rfl
  | cons hd tl ih =>
    intro a
    simp only [List.foldl_cons, ih, statsStep_max]

/-- Folding the loop computes the running minimum of the per-hand nets. -/
theorem foldl_min (p : String) (hands : List HandLog) : ∀ a : Accum,
    (hands.foldl (statsStep p) a).min_pot =
      hands.foldl (fun m h => min m (specHandNet h p)) a.min_pot := by
  induction hands with
  | nil => intro a; rfl
  | cons hd tl ih =>
    intro a
    simp only [List.foldl_cons, ih, statsStep_min]

/-- A running maximum started at `0` over all-zero nets stays `0`. -/
theorem foldl_max_zero (p : String) : ∀ hands : List HandLog,
    (∀ h ∈ hands, specHandNet h p = 0) →
    hands.foldl (fun m h => max m (specHandNet h p)) 0 = 0 := by
  intro hands
  induction hands with
  | nil => intro _; rfl
  | cons hd tl ih =>
    intro hz
    have h0 : specHandNet hd p = 0 := hz hd (List.mem_cons_self hd tl)
    simp only [List.foldl_cons, h0, max_self]
    exact ih (fun h hm => hz h (List.mem_cons_of_mem hd hm))

/-- A running minimum started at `0` over all-zero nets stays `0`. -/
theorem foldl_min_zero (p : String) : ∀ hands : List HandLog,
    (∀ h ∈ hands, specHandNet h p = 0) →
    hands.foldl (fun m h => min m (specHandNet h p)) 0 = 0 := by
  intro hands
  induction hands with
  | nil => intro _; rfl
  | cons hd tl ih =>
    intro hz
    have h0 : specHandNet hd p = 0 := hz hd (List.mem_cons_self hd tl)
    simp only [List.foldl_cons, h0, min_self]
    exact ih (fun h hm => hz h (List.mem_cons_of_mem hd hm))

/-! ## Dictionary lemmas -/

/-- `dictMem` agrees with a successful `find?`. -/
theorem dictMem_eq_isSome (d : Dict) (k : String) :
    dictMem d k = (d.find? (fun q => q.1 == k)).isSome := by
  induction d with
  | nil => rfl
  | cons q rest ih =>
    by_cases hq : q.1 == k
    · simp [dictMem, List.find?, hq]
    · have hq2 : (q.1 == k) = false := by simpa using hq
      rw [show dictMem (q :: rest) k = dictMem rest k by simp [dictMem, hq2], ih]
      simp [List.find?, hq2]

/-- Replacing every entry keyed `n` makes `find?` for `n` return the new
pair, provided some entry was keyed `n`. -/
theorem find_map_replace (n : String) (v : ℚ) : ∀ d : Dict,
    d.any (fun q => q.1 == n) = true →
    (d.map (fun q => if q.1 == n then (n, v) else q)).find? (fun q => q.1 == n) =
      some (n, v) := by
  intro d
  induction d with
  | nil => intro h; cases h
  | cons q rest ih =>
    intro h
    by_cases hq : q.1 == n
    · simp only [List.map_cons, if_pos hq]
      simp [List.find?]
    · have hq2 : (q.1 == n) = false := by simpa using hq
      simp only [List.map_cons, if_neg hq]
      rw [show (q :: rest.map (fun q => if q.1 == n then (n, v) else q)).find?
            (fun q => q.1 == n) =
          (rest.map (fun q => if q.1 == n then (n, v) else q)).find?
            (fun q => q.1 == n) by simp [List.find?, hq2]]
      apply ih
      simp only [List.any_cons, Bool.or_eq_true] at h
      rcases h with h | h
      · rw [h] at hq2; cases hq2
      · exact h

/-- Appending a pair keyed `n` to a list with no entry keyed `n` makes
`find?` for `n` return the appended pair. -/
theorem find_append_none (n : String) (v : ℚ) (d : Dict)
    (h : d.any (fun q => q.1 == n) = false) :
    (d ++ [(n, v)]).find? (fun q => q.1 == n) = some (n, v) := by
  rw [List.find?_append]
  have hnone : d.find? (fun q => q.1 == n) = none := by
    cases hf : d.find? (fun q => q.1 == n) with
    | none => rfl
    | some x =>
      have hx := List.find?_some hf
      have hmemx := List.mem_of_find?_eq_some hf
      have hany : d.any (fun q => q.1 == n) = true := List.any_eq_true.mpr ⟨x, hmemx, hx⟩
      rw [h] at hany
      cases hany
  rw [hnone]
  simp [List.find?]

/-- After `dictInsert d n v`, looking up `n` finds `(n, v)`. -/
theorem dictInsert_find_self (d : Dict) (n : String) (v : ℚ) :
    (dictInsert d n v).find? (fun q => q.1 == n) = some (n, v) := by
  unfold dictInsert
  by_cases hmem : d.any (fun q => q.1 == n)
  · rw [if_pos hmem]
    exact find_map_replace n v d hmem
  · rw [if_neg hmem]
    exact find_append_none n v d (Bool.eq_false_iff.mpr hmem)

/-- Replacing entries keyed `k` does not change `find?` for a different
key `n`. -/
theorem find_map_replace_other (k n : String) (v : ℚ) (hk : (n == k) = false) :
    ∀ d : Dict,
      (d.map (fun q => if q.1 == k then (k, v) else q)).find? (fun q => q.1 == n) =
        d.find? (fun q => q.1 == n) := by
  have hkn : (k == n) = false := by
    rw [beq_eq_false_iff_ne] at hk ⊢
    exact fun he => hk he.symm
  intro d
  induction d with
  | nil => rfl
  | cons q rest ih =>
    by_cases hq : q.1 == k
    · have hq1 : q.1 = k := beq_iff_eq.mp hq
      have hqn : (q.1 == n) = false := by rw [hq1]; exact hkn
      simp only [List.map_cons, if_pos hq]
      simp only [List.find?, hkn, hqn]
      exact ih
    · simp only [List.map_cons, if_neg hq]
      by_cases hqn : q.1 == n
      · simp [List.find?, hqn]
      · have hqn2 : (q.1 == n) = false := by simpa using hqn
        simp only [List.find?, hqn2]
        exact ih

/-- `dictInsert` for key `k` does not change `find?` for a different key. -/
theorem dictInsert_find_other (d : Dict) (k : String) (v : ℚ) (n : String)
    (h : (n == k) = false) :
    (dictInsert d k v).find? (fun q => q.1 == n) = d.find? (fun q => q.1 == n) := by
  unfold dictInsert
  have hkn : (k == n) = false := by
    rw [beq_eq_false_iff_ne] at h ⊢
    exact fun he => h he.symm
  by_cases hmem : d.any (fun q => q.1 == k)
  · rw [if_pos hmem]
    exact find_map_replace_other k n v h d
  · rw [if_neg hmem]
    rw [List.find?_append]
    cases hd : d.find? (fun q => q.1 == n) with
    | some q => simp
    | none => simp [List.find?, hkn]

/-- Looking up `n` in the dictionary built from settlement entries: the
last kept entry (amount text other than `"0"`) for `n` wins, scaled by
`/ 10`; with no kept entry for `n` the accumulator is unchanged at `n`. -/
theorem buildAmounts_find : ∀ (entries : List String) (d d1 : Dict) (n : String),
    buildAmounts d entries = .ok d1 →
    d1.find? (fun q => q.1 == n) =
      match (keptEntries entries).reverse.find? (fun q => q.1 == n) with
      | some q => (parseDecimal q.2).map (fun v => (n, v / 10))
      | none => d.find? (fun q => q.1 == n) := by
  intro entries
  induction entries with
  | nil =>
    intro d d1 n h
    simp only [buildAmounts, Except.ok.injEq] at h
    subst h
    simp [keptEntries]
  | cons e rest ih =>
    intro d d1 n h
    unfold buildAmounts at h
    cases hsp : splitColonSpace e with
    | nil => rw [hsp] at h; cases h
    | cons nm t =>
      cases t with
      | nil => rw [hsp] at h; cases h
      | cons amt t2 =>
        cases t2 with
        | cons x t3 => rw [hsp] at h; cases h
        | nil =>
          rw [hsp] at h
          dsimp only at h
          by_cases hz : amt = "0"
          · rw [if_pos hz] at h
            have hke : keptEntries (e :: rest) = keptEntries rest := by
              simp [keptEntries, List.filterMap_cons, hsp, hz]
            rw [hke]
            exact ih d d1 n h
          · rw [if_neg hz] at h
            cases hp : parseDecimal amt with
            | none => rw [hp] at h; cases h
            | some v =>
              rw [hp] at h
              have hke : keptEntries (e :: rest) = (nm, amt) :: keptEntries rest := by
                simp [keptEntries, List.filterMap_cons, hsp, hz]
              rw [hke, List.reverse_cons, List.find?_append]
              have hih := ih (dictInsert d nm (v / 10)) d1 n h
              cases hfind : (keptEntries rest).reverse.find? (fun q => q.1 == n) with
              | some q =>
                rw [hfind] at hih
                rw [hih]
                simp
              | none =>
                rw [hfind] at hih
                by_cases hnm : nm == n
                · have hnm1 : nm = n := beq_iff_eq.mp hnm
                  subst hnm1
                  rw [hih, dictInsert_find_self]
                  simp [List.find?, hp]
                · have hnm2 : (nm == n) = false := by simpa using hnm
                  have hnmr : (n == nm) = false := by
                    rw [beq_eq_false_iff_ne] at hnm2 ⊢
                    exact fun he => hnm2 he.symm
                  rw [hih, dictInsert_find_other d nm (v / 10) n hnmr]
                  simp [List.find?, hnm2]

/-! ## Claim theorems -/

/-- C1: the claim (and the spec's §7 contract) says `player_info` renders a
sentinel for zero denominators; the code divides unguarded and raises
`ZeroDivisionError` — here evaluated on a player never seated
(`total_hands = 0`) and on a player seated but never voluntarily in
(`num_vpip = 0`). -/
theorem player_info_zero_denominator_raises :
    player_info [] "alice" = .error .zeroDivisionError ∧
    player_info [⟨false, [], ["alice"], [], []⟩] "alice" = .error .zeroDivisionError :=
  ⟨rfl, rfl⟩

/-- C2 counterexample: a pot-settlement line arriving while no pot
accumulator is open raises (the source asserts `isinstance(pot, Pot)`), so
`read_hand_history` does not return normally on every line sequence. -/
theorem settlement_without_pot_raises :
    read_hand_history [Line.settlement "alice: 10"] = .error .assertionError :=
  rfl

/-- C2 amended: unrecognized lines leave the parser state unchanged, and
`read_hand_history` returns normally whenever every settlement line arrives
with a pot open and every amount text parses; a settlement line with no
open pot (or a malformed amount) raises instead. -/
theorem read_hand_history_total :
    (∀ st : ParseState, stepLine st Line.other = .ok st) ∧
    (∀ lines : List Line, (∀ l ∈ lines, lineOk l = true) →
      potDiscipline false lines = true → (read_hand_history lines).isOk = true) := by
  constructor
  · intro st; rfl
  · intro lines hok hdisc
    obtain ⟨st1, h1⟩ := runLines_total lines initState hok hdisc
    unfold read_hand_history
    rw [h1]
    rfl

/-- C2 witness: the theorem applied to a no-op line and to a seat line
followed by a blank line. -/
theorem read_hand_history_total_witness :
    stepLine initState Line.other = .ok initState ∧
    (read_hand_history [Line.seat "alice", Line.blank]).isOk = true :=
  ⟨read_hand_history_total.1 initState,
   read_hand_history_total.2 [Line.seat "alice", Line.blank] (by decide) (by decide)⟩

/-- C5: a blank line appends the current hand accumulator iff it is
non-empty (some blind, seated player, voluntary action or pot), and hence
no `HandLog` in a parse result satisfies `is_empty`. -/
theorem no_empty_hand_in_result :
    (∀ st : ParseState, stepLine st Line.blank =
      .ok { st with
        hands := if st.hand.is_empty then st.hands else st.hands ++ [st.hand],
        hand := HandLog.empty_hand }) ∧
    (∀ (lines : List Line) (hh : HandHistory), read_hand_history lines = .ok hh →
      ∀ hl ∈ hh.hand_logs, hl.is_empty = false) := by
  constructor
  · intro st; rfl
  · intro lines hh h hl hmem
    unfold read_hand_history at h
    cases hr : runLines initState lines with
    | error e => rw [hr] at h; cases h
    | ok st1 =>
      rw [hr] at h
      simp only [Except.ok.injEq] at h
      subst h
      exact runLines_hands_nonempty lines initState st1
        (fun x hx => absurd hx (List.not_mem_nil x)) hr hl hmem

/-- C5 witness: the single hand produced by a seat line then a blank line
is non-empty. -/
theorem no_empty_hand_in_result_witness :
    HandLog.is_empty ⟨false, [], ["alice"], [], []⟩ = false :=
  no_empty_hand_in_result.2 [Line.seat "alice", Line.blank]
    ⟨[⟨false, [], ["alice"], [], []⟩], []⟩ rfl
    ⟨false, [], ["alice"], [], []⟩ (by simp)

/-- C6: the loop counts a hand as won iff `amount_won > 0` and
`amount_won > amount_bet` (with the showdown-win counter additionally
requiring `has_showdown`), and as lost iff not won and `amount_bet > 0`,
where the amounts are the sums of the player's entries across the hand's
pots. -/
theorem won_lost_classification (hands : List HandLog) (p : String) :
    (computeAccum hands p).num_hands_won = hands.countP (fun h => specWon h p) ∧
    (computeAccum hands p).num_hands_won_showdown =
      hands.countP (fun h => specWon h p && h.has_showdown) ∧
    (computeAccum hands p).num_hands_lost = hands.countP (fun h => specLost h p) := by
  unfold computeAccum
  refine ⟨?_, ?_, ?_⟩
  · rw [foldl_num_won]; simp [initAccum]
  · rw [foldl_num_won_sd]; simp [initAccum]
  · rw [foldl_num_lost]; simp [initAccum]

/-- C9: `max_pot` is the running maximum, started at `0`, of the per-hand
nets over all hands, and `min_pot` the running minimum; a player whose
every per-hand net is zero reports `0` for both. -/
theorem max_min_pot_running (hands : List HandLog) (p : String) :
    (computeAccum hands p).max_pot =
      hands.foldl (fun m h => max m (specHandNet h p)) 0 ∧
    (computeAccum hands p).min_pot =
      hands.foldl (fun m h => min m (specHandNet h p)) 0 ∧
    ((∀ h ∈ hands, specHandNet h p = 0) →
      (computeAccum hands p).max_pot = 0 ∧ (computeAccum hands p).min_pot = 0) := by
  have hmax : (computeAccum hands p).max_pot =
      hands.foldl (fun m h => max m (specHandNet h p)) 0 := by
    unfold computeAccum
    rw [foldl_max]
    rfl
  have hmin : (computeAccum hands p).min_pot =
      hands.foldl (fun m h => min m (specHandNet h p)) 0 := by
    unfold computeAccum
    rw [foldl_min]
    rfl
  refine ⟨hmax, hmin, fun hz => ⟨?_, ?_⟩⟩
  · rw [hmax]; exact foldl_max_zero p hands hz
  · rw [hmin]; exact foldl_min_zero p hands hz

/-- C9 witness: on an empty hand list both extremes are `0`. -/
theorem max_min_pot_running_witness :
    (computeAccum [] "alice").max_pot = 0 ∧ (computeAccum [] "alice").min_pot = 0 :=
  (max_min_pot_running [] "alice").2.2 (by simp)

/-- C10: a trailing in-progress hand (stream not ended by a blank line) is
discarded by `read_hand_history`; appending a blank line would have flushed
exactly that hand. -/
theorem trailing_hand_discarded (lines : List Line) (st : ParseState)
    (h : runLines initState lines = .ok st) (hne : st.hand.is_empty = false) :
    read_hand_history lines = .ok ⟨st.hands, st.player_adds⟩ ∧
    read_hand_history (lines ++ [Line.blank]) =
      .ok ⟨st.hands ++ [st.hand], st.player_adds⟩ := by
  constructor
  · unfold read_hand_history
    rw [h]
  · unfold read_hand_history
    rw [runLines_append, h]
    simp [runLines, stepLine, hne]

/-- C10 witness: a lone seat line yields no hand, while the same input
followed by a blank line yields that hand. -/
theorem trailing_hand_discarded_witness :
    read_hand_history [Line.seat "alice"] = .ok ⟨[], []⟩ ∧
    read_hand_history ([Line.seat "alice"] ++ [Line.blank]) =
      .ok ⟨[⟨false, [], ["alice"], [], []⟩], []⟩ :=
  trailing_hand_discarded [Line.seat "alice"]
    ⟨[], ⟨false, [], ["alice"], [], []⟩, [], none, []⟩ rfl rfl

/-- Two winner lines for the same player before one settlement. -/
def exLines3 : List Line :=
  [Line.winner "alice" "30", Line.winner "alice" "50",
   Line.settlement "alice: 80", Line.blank]

/-- C3 counterexample: a second winner line for the same player overwrites
(`winners[name] = amount`, not `+=`): the stored award is `50 / 10`, not
`30 / 10 + 50 / 10`. -/
theorem winner_overwrite_counterexample :
    (read_hand_history exLines3).map
      (fun hh => hh.hand_logs.map (fun hl => hl.pots.map
        (fun pot => dictGet pot.winners "alice" 0))) = .ok [[(50 : ℚ) / 10]] ∧
    (50 : ℚ) / 10 ≠ (30 : ℚ) / 10 + (50 : ℚ) / 10 := by
  constructor
  · rfl
  · norm_num

/-- C3 amended: winner lines before a settlement accumulate into one single
pot, each setting `winners[name] = amount / 10` (overwriting a previous
entry for the same name, summing nothing); two winner lines for distinct
players give that one pot two entries, and the next settlement appends
exactly that pot. -/
theorem winner_lines_single_pot (st : ParseState) (n1 n2 t1 t2 : String) (v1 v2 : ℚ)
    (h1 : parseDecimal t1 = some v1) (h2 : parseDecimal t2 = some v2)
    (hpot : st.pot = none) :
    runLines st [Line.winner n1 t1, Line.winner n1 t2] =
      .ok { st with pot := some ⟨[], [(n1, v2 / 10)], []⟩ } ∧
    (n1 ≠ n2 →
      runLines st [Line.winner n1 t1, Line.winner n2 t2] =
        .ok { st with pot := some ⟨[], [(n1, v1 / 10), (n2, v2 / 10)], []⟩ } ∧
      ∀ (players : String) (amts : Dict),
        buildAmounts [] (splitCommaSpace players) = .ok amts →
        runLines st [Line.winner n1 t1, Line.winner n2 t2, Line.settlement players] =
          .ok { st with
            hand := { st.hand with pots := st.hand.pots ++
              [⟨amts, [(n1, v1 / 10), (n2, v2 / 10)], st.shows⟩] },
            pot := none }) := by
  have hins1 : dictInsert [] n1 (v1 / 10) = [(n1, v1 / 10)] := rfl
  have hover : dictInsert [(n1, v1 / 10)] n1 (v2 / 10) = [(n1, v2 / 10)] := by
    simp [dictInsert]
  constructor
  · simp only [runLines, stepLine, h1, h2, hpot]
    rw [hins1, hover]
  · intro hne
    have hne2 : (n1 == n2) = false := beq_eq_false_iff_ne.mpr hne
    have hdist : dictInsert [(n1, v1 / 10)] n2 (v2 / 10) =
        [(n1, v1 / 10), (n2, v2 / 10)] := by
      simp [dictInsert, hne2]
    constructor
    · simp only [runLines, stepLine, h1, h2, hpot]
      rw [hins1, hdist]
    · intro players amts hb
      simp only [runLines, stepLine, h1, h2, hpot, hb]
      rw [hins1, hdist]

/-- C3 witness: the amended theorem applied at concrete winner lines. -/
theorem winner_lines_single_pot_witness :
    runLines initState [Line.winner "alice" "30", Line.winner "alice" "50"] =
      .ok { initState with pot := some ⟨[], [("alice", (50 : ℚ) / 10)], []⟩ } :=
  (winner_lines_single_pot initState "alice" "bob" "30" "50" 30 50 rfl rfl rfl).1

/-- C8: every ingested monetary amount — winner award, blind, settlement
contribution, chip addition — is the numeric value of its text divided by
10, applied exactly once; in particular `"125"` is stored as `12.5`. -/
theorem amounts_scaled_by_ten :
    (∀ (st : ParseState) (n t : String) (v : ℚ), parseDecimal t = some v → st.pot = none →
      stepLine st (Line.winner n t) =
        .ok { st with pot := some ⟨[], [(n, v / 10)], []⟩ }) ∧
    (∀ (st : ParseState) (n t : String) (v : ℚ), parseDecimal t = some v →
      stepLine st (Line.blind n t) =
        .ok { st with hand := { st.hand with
          blinds := dictInsert st.hand.blinds n (v / 10) } }) ∧
    (∀ (st : ParseState) (n t : String) (v : ℚ), parseDecimal t = some v →
      stepLine st (Line.adds n t) =
        .ok { st with player_adds := st.player_adds ++ [(n, v / 10)] }) ∧
    (∀ (d : Dict) (rest : List String) (e n t : String) (v : ℚ),
      parseDecimal t = some v → t ≠ "0" → splitColonSpace e = [n, t] →
      buildAmounts d (e :: rest) = buildAmounts (dictInsert d n (v / 10)) rest) ∧
    (parseDecimal "125" = some 125 ∧ (125 : ℚ) / 10 = 12.5) := by
  refine ⟨?_, ?_, ?_, ?_, rfl, by norm_num⟩
  · intro st n t v hp hpot
    simp only [stepLine, hp, hpot]
    rfl
  · intro st n t v hp
    simp only [stepLine, hp]
  · intro st n t v hp
    simp only [stepLine, hp]
  · intro d rest e n t v hp hz hsp
    conv_lhs => rw [buildAmounts]
    rw [hsp]
    dsimp only
    rw [if_neg hz, hp]

/-- C8 witness: the theorem applied to the amount text `"125"` on a winner
line and on a settlement entry. -/
theorem amounts_scaled_by_ten_witness :
    stepLine initState (Line.winner "alice" "125") =
      .ok { initState with pot := some ⟨[], [("alice", (125 : ℚ) / 10)], []⟩ } ∧
    buildAmounts [] ["bob: 125"] =
      buildAmounts (dictInsert [] "bob" ((125 : ℚ) / 10)) [] :=
  ⟨amounts_scaled_by_ten.1 initState "alice" "125" 125 rfl rfl,
   amounts_scaled_by_ten.2.2.2.1 [] [] "bob: 125" "bob" "125" 125 rfl (by decide) (by decide)⟩

/-- If building the settlement dictionary succeeded, every kept entry's
amount text parses. -/
theorem buildAmounts_kept_parse : ∀ (entries : List String) (d d1 : Dict),
    buildAmounts d entries = .ok d1 →
    ∀ q ∈ keptEntries entries, (parseDecimal q.2).isSome = true := by
  intro entries
  induction entries with
  | nil =>
    intro d d1 _ q hq
    simp [keptEntries] at hq
  | cons e rest ih =>
    intro d d1 h q hq
    unfold buildAmounts at h
    cases hsp : splitColonSpace e with
    | nil => rw [hsp] at h; cases h
    | cons nm t =>
      cases t with
      | nil => rw [hsp] at h; cases h
      | cons amt t2 =>
        cases t2 with
        | cons x t3 => rw [hsp] at h; cases h
        | nil =>
          rw [hsp] at h
          dsimp only at h
          by_cases hz : amt = "0"
          · rw [if_pos hz] at h
            have hke : keptEntries (e :: rest) = keptEntries rest := by
              simp [keptEntries, List.filterMap_cons, hsp, hz]
            rw [hke] at hq
            exact ih d d1 h q hq
          · rw [if_neg hz] at h
            cases hp : parseDecimal amt with
            | none => rw [hp] at h; cases h
            | some v =>
              rw [hp] at h
              have hke : keptEntries (e :: rest) = (nm, amt) :: keptEntries rest := by
                simp [keptEntries, List.filterMap_cons, hsp, hz]
              rw [hke] at hq
              rcases List.mem_cons.mp hq with hq1 | hq1
              · subst hq1
                simp [hp]
              · exact ih (dictInsert d nm (v / 10)) d1 h q hq1

/-- C7 amended: a settlement line (with a pot open) appends one pot whose
`amounts` contains an entry for exactly those listed players whose amount
TEXT is not the literal `"0"` (the filter is textual, not numeric), each
mapped to its parsed amount divided by 10 (last kept entry winning). -/
theorem settlement_textual_filter (st : ParseState) (pt : Pot) (players : String)
    (amts : Dict) (hpot : st.pot = some pt)
    (hb : buildAmounts [] (splitCommaSpace players) = .ok amts) :
    stepLine st (Line.settlement players) =
      .ok { st with
        hand := { st.hand with
          pots := st.hand.pots ++ [{ pt with amounts := amts, at_showdown := st.shows }] },
        pot := none } ∧
    (∀ n, dictMem amts n =
      ((keptEntries (splitCommaSpace players)).reverse.find? (fun q => q.1 == n)).isSome) ∧
    (∀ n amt,
      (keptEntries (splitCommaSpace players)).reverse.find? (fun q => q.1 == n) =
        some (n, amt) →
      ∃ v, parseDecimal amt = some v ∧ dictGet amts n 0 = v / 10) := by
  refine ⟨?_, ?_, ?_⟩
  · simp only [stepLine, hpot, hb]
  · intro n
    rw [dictMem_eq_isSome]
    rw [buildAmounts_find (splitCommaSpace players) [] amts n hb]
    cases hf : (keptEntries (splitCommaSpace players)).reverse.find? (fun q => q.1 == n) with
    | none => rfl
    | some q =>
      have hqmem : q ∈ keptEntries (splitCommaSpace players) :=
        List.mem_reverse.mp (List.mem_of_find?_eq_some hf)
      have hps := buildAmounts_kept_parse (splitCommaSpace players) [] amts hb q hqmem
      cases hpq : parseDecimal q.2 with
      | none => rw [hpq] at hps; cases hps
      | some v => simp [hpq]
  · intro n amt hf
    have hch := buildAmounts_find (splitCommaSpace players) [] amts n hb
    rw [hf] at hch
    dsimp only at hch
    have hqmem : (n, amt) ∈ keptEntries (splitCommaSpace players) :=
      List.mem_reverse.mp (List.mem_of_find?_eq_some hf)
    have hps := buildAmounts_kept_parse (splitCommaSpace players) [] amts hb (n, amt) hqmem
    cases hpq : parseDecimal amt with
    | none => rw [hpq] at hps; cases hps
    | some v =>
      refine ⟨v, rfl, ?_⟩
      rw [hpq] at hch
      dsimp only [Option.map] at hch
      unfold dictGet
      rw [hch]

/-- A parser state with an empty pot accumulator open. -/
def stw7 : ParseState :=
  ⟨[], HandLog.empty_hand, [], some ⟨[], [], []⟩, []⟩

/-- C7 witness: the amended theorem applied to the settlement text
`"alice: 30, bob: 0"`; the textual `"0"` entry is dropped. -/
theorem settlement_textual_filter_witness :
    stepLine stw7 (Line.settlement "alice: 30, bob: 0") =
      .ok { stw7 with
        hand := { stw7.hand with
          pots := stw7.hand.pots ++ [⟨[("alice", (30 : ℚ) / 10)], [], []⟩] },
        pot := none } :=
  (settlement_textual_filter stw7 ⟨[], [], []⟩ "alice: 30, bob: 0"
    [("alice", (30 : ℚ) / 10)] rfl rfl).1

/-- One winner, then a settlement listing an amount text `"0.0"`. -/
def exLines7 : List Line :=
  [Line.winner "alice" "30", Line.settlement "alice: 30, bob: 0.0, carl: 0", Line.blank]

/-- C7 counterexample: the filter is `amt != "0"` on the TEXT, so the entry
`bob: 0.0` is kept with numeric value 0 — a zero-contribution player is NOT
omitted from `amounts` (while `carl: 0` is); this refutes the claim that
exactly the non-zero contributors appear. -/
theorem settlement_zero_text_counterexample :
    (read_hand_history exLines7).map
      (fun hh => hh.hand_logs.map (fun hl => hl.pots.map Pot.amounts)) =
      .ok [[[("alice", (30 : ℚ) / 10),
             ("bob", ((0 : ℚ) + (0 : ℚ) / ((10 ^ 1 : ℕ) : ℚ)) / 10)]]] ∧
    dictMem [("alice", (30 : ℚ) / 10),
             ("bob", ((0 : ℚ) + (0 : ℚ) / ((10 ^ 1 : ℕ) : ℚ)) / 10)] "bob" = true ∧
    dictMem [("alice", (30 : ℚ) / 10),
             ("bob", ((0 : ℚ) + (0 : ℚ) / ((10 ^ 1 : ℕ) : ℚ)) / 10)] "carl" = false ∧
    ((0 : ℚ) + (0 : ℚ) / ((10 ^ 1 : ℕ) : ℚ)) / 10 = 0 := by
  refine ⟨rfl, by decide, by decide, by norm_num⟩

/-- Three concrete hands for `alice`: a lost hand with a voluntary action
(bet 4), a lost hand without one but with a blind of 1 (bet 5), and a hand
won at showdown (bet 2, won 10). -/
def exHands4 : List HandLog :=
  [⟨false, [], ["alice"], ["alice"], [⟨[("alice", 4)], [], []⟩]⟩,
   ⟨false, [("alice", 1)], ["alice"], [], [⟨[("alice", 5)], [], []⟩]⟩,
   ⟨true, [], ["alice"], ["alice"], [⟨[("alice", 2)], [("alice", 10)], ["alice"]⟩]⟩]

/-- The accumulators of `player_info` evaluated on the three-hand example. -/
theorem computeAccum_ex4 :
    computeAccum exHands4 "alice" = ⟨1, 2, 1, 1, -1, 8, 10, 9, 1, 8, -5⟩ := by
  norm_num [exHands4, computeAccum, statsStep, handAmounts, dictGet, initAccum,
    List.find?, List.foldl]

/-- The full report evaluated on the three-hand example. -/
theorem player_info_ex4 :
    player_info exHands4 "alice" =
      .ok ⟨-1, 3, 3, 100, 2, 200 / 3, 1, 50, 1, 100 / 3, 50, 1, 100 / 3, 100, 10, 8, 8,
        9 / 2, 2, 8, 1, -5⟩ := by
  simp only [player_info]
  rw [computeAccum_ex4]
  norm_num [exHands4, totalHands, numShowdown, numVpip, numPart, dictMem, List.find?,
    List.countP, List.countP.go]

/-- C4 counterexample: the report's "Average Pot Lost (VPiP only)" is 8 on
the example, while the claim's formula (sum of `amount_bet - amount_won`
over the Lost-and-VPIP hands divided by their count) gives 4: line 164
averages `net_lost - blinds_paid`, which also counts non-VPIP losses and
subtracts all blinds. -/
theorem avg_lost_vpip_counterexample :
    (player_info exHands4 "alice").map Report.avg_lost_vpip = .ok 8 ∧
    claimAvgLostVpip exHands4 "alice" = 4 ∧ (8 : ℚ) ≠ 4 := by
  refine ⟨?_, ?_, by norm_num⟩
  · rw [player_info_ex4]
    rfl
  · norm_num [claimAvgLostVpip, exHands4, specLost, specWon, specAmountWon, specAmountBet,
      dictGet, List.find?]

/-- C4 amended: the reported "Average Pot Lost (VPiP only)" equals the sum
of `amount_bet - amount_won` over ALL Lost hands, minus the player's total
blinds over all hands, divided by the count of Lost hands with the player
in `vpip`. -/
theorem avg_lost_vpip_formula (hands : List HandLog) (p : String) (r : Report)
    (h : player_info hands p = .ok r) :
    r.avg_lost_vpip = codeAvgLostVpip hands p := by
  simp only [player_info] at h
  split_ifs at h
  simp only [Except.ok.injEq] at h
  subst h
  dsimp only
  unfold codeAvgLostVpip computeAccum
  rw [foldl_net_lost, foldl_blinds, foldl_num_lost_vpip]
  simp [initAccum]

/-- C4 witness: the amended formula evaluated on the three-hand example. -/
theorem avg_lost_vpip_formula_witness :
    Report.avg_lost_vpip
      ⟨-1, 3, 3, 100, 2, 200 / 3, 1, 50, 1, 100 / 3, 50, 1, 100 / 3, 100, 10, 8, 8,
        9 / 2, 2, 8, 1, -5⟩ = codeAvgLostVpip exHands4 "alice" :=
  avg_lost_vpip_formula exHands4 "alice" _ player_info_ex4

end HandHist
